import Mathlib

/-!
Verification of the command-line driver in `encodec/__main__.py`.

The driver is embedded shallowly: `pathlib.Path` becomes `PyPath` (a list of
components, with `name` / `stem` / `suffix` / `with_name` / `with_suffix`
following CPython's `PurePath` semantics on the final component), the file
system and the external codec registry become an explicit environment `Env`,
and `main` becomes a pure function producing a trace of externally visible
events (`Event`) together with a process outcome (`Outcome`).  Waveform
samples are modelled as exact rationals; the clipping threshold `0.99` and
the bandwidth values are rationals as well, which is faithful to the
branching logic of the source.
-/

/-- Model of a relative `pathlib.Path`: the list of its components. -/
structure PyPath where
  parts : List String
deriving DecidableEq, Repr

/-- `Path.name`: the final component (`""` for an empty path). -/
def PyPath.name (p : PyPath) : String := p.parts.getLastD ""

/-- `Path.parent`: drop the final component. -/
def PyPath.parent (p : PyPath) : PyPath := ⟨p.parts.dropLast⟩

/-- `Path.with_name`: replace the final component. -/
def PyPath.withName (p : PyPath) (n : String) : PyPath := ⟨p.parts.dropLast ++ [n]⟩

/-- Split a reversed character list at its first `'.'`: returns
`(charsAfterLastDotReversed, charsBeforeLastDotReversed)` for the original
string, i.e. the data CPython's `name.rfind('.')` produces. -/
def splitFirstDot : List Char → Option (List Char × List Char)
  | [] => none
  | c :: cs =>
    if c = '.' then some ([], cs)
    else
      match splitFirstDot cs with
      | some p => some (c :: p.1, p.2)
      | none => none

/-- CPython `PurePath.suffix` on a name string: `name[i:]` for `i` the index
of the last dot, provided `0 < i < len(name) - 1`, else `""`. -/
def pathSuffix (n : String) : String :=
  match splitFirstDot n.data.reverse with
  | some q => if q.1 = [] ∨ q.2 = [] then "" else ⟨'.' :: q.1.reverse⟩
  | none => ""

/-- CPython `PurePath.stem` on a name string: `name[:i]` under the same
condition as `pathSuffix`, else the whole name. -/
def pathStem (n : String) : String :=
  match splitFirstDot n.data.reverse with
  | some q => if q.1 = [] ∨ q.2 = [] then n else ⟨q.2.reverse⟩
  | none => n

/-- CPython `PurePath.with_suffix` acting on the name: when the old suffix is
empty the new suffix is appended, otherwise it replaces the old one; both
cases equal `stem ++ suffix`. -/
def withSuffixName (n suf : String) : String := pathStem n ++ suf

/-- `Path.suffix` of the final component. -/
def PyPath.suffix (p : PyPath) : String := pathSuffix p.name

/-- `Path.stem` of the final component. -/
def PyPath.stem (p : PyPath) : String := pathStem p.name

/-- `Path.with_suffix` (for the valid, dot-initial suffixes the driver uses;
CPython raises `ValueError` when `name` is empty, which the semantics below
models at its call site). -/
def PyPath.withSuffix (p : PyPath) (suf : String) : PyPath :=
  p.withName (withSuffixName p.name suf)

/-- `str.lower()` as the source applies it to extensions (ASCII mapping;
agrees with Python on the ASCII strings extensions are made of). -/
def strToLower (s : String) : String := ⟨s.data.map Char.toLower⟩

/-- `SUFFIX = ".ecdc"` from the source. -/
def SUFFIX : String := ".ecdc"

/-- One entry of the external `MODELS` registry: sample rate, channel count
and the supported target bandwidths of a codec variant. -/
structure ModelCfg where
  sampleRate : Nat
  channels : Nat
  targetBandwidths : List ℚ
deriving DecidableEq, Repr

/-- The parsed command-line arguments (`get_parser().parse_args()`). -/
structure Args where
  input : PyPath
  output : Option PyPath
  bandwidth : ℚ
  hq : Bool
  lm : Bool
  force : Bool
  decompressSuffix : String
  rescale : Bool
  gpu : Bool
  time : Bool
deriving DecidableEq, Repr

/-- The environment: file-system existence, CUDA availability, the external
model registry, and the waveform an invocation of `decompress` yields. -/
structure Env where
  ex : PyPath → Bool
  cudaAvailable : Bool
  models : String → ModelCfg
  decOut : List ℚ

/-- The distinct fatal diagnostics `main` can print before exiting 1. -/
inductive Err
  | inputMissing
  | outDirMissing
  | outputExists
  | badExtDecompress
  | badExtCompress
  | badBandwidth
deriving DecidableEq, Repr

/-- Process outcome: normal exit 0, `fatal` (diagnostic plus exit 1), a
failed `assert` (AssertionError), or an uncaught `ValueError` raised by
`Path.with_suffix` on an empty name. -/
inductive Outcome
  | ok
  | fatal (e : Err)
  | assertFailed
  | raisedError
deriving DecidableEq, Repr

/-- Externally visible actions of one invocation, in order. -/
inductive Event
  | readInputBytes (p : PyPath)
  | loadWaveform (p : PyPath)
  | convertAudio (sr ch : Nat)
  | lookupModel (modelName : String)
  | setBandwidth (b : ℚ)
  | encode (modelName : String) (b : ℚ) (lm cuda : Bool)
  | encodeEmbedding (cuda : Bool)
  | decode (cuda : Bool)
  | warnClipping (mx : ℚ)
  | writeBytes (p : PyPath)
  | saveEmbedding (p : PyPath)
  | saveAudio (p : PyPath) (rescale : Bool)
  | timeReport (b : ℚ) (hq lm cuda : Bool)
deriving DecidableEq, Repr

/-- The result of one invocation: the event trace and the outcome. -/
structure Result where
  trace : List Event
  outcome : Outcome
deriving DecidableEq, Repr

/-- `check_output_exists(args)`: parent directory first, then the
overwrite guard. -/
def checkOutputExists (e : Env) (out : PyPath) (force : Bool) : Option Err :=
  if e.ex out.parent then
    if e.ex out && !force then some .outputExists else none
  else some .outDirMissing

/-- `wav.abs().max()` over the sample list. -/
def maxAbs (w : List ℚ) : ℚ := w.foldl (fun m x => max m |x|) 0

/-- `check_clipping(wav, args)`: events it emits (a warning or nothing). -/
def clipEvents (w : List ℚ) (rescale : Bool) : List Event :=
  if rescale then []
  else if maxAbs w > mkRat 99 100 then [Event.warnClipping (maxAbs w)] else []

/-- `"encodec_48khz" if args.hq else "encodec_24khz"`. -/
def modelNameOf (hq : Bool) : String :=
  if hq then "encodec_48khz" else "encodec_24khz"

/-- Legal compression-family output extensions: `[SUFFIX, ".wav", ".pt"]`. -/
def legalCompressExt (s : String) : Bool :=
  s == SUFFIX || s == ".wav" || s == ".pt"

/-- Decompression pipeline body after the extension has been settled:
`check_output_exists`, then read bytes, decode, clipping check, save. -/
def decompressRun (a : Args) (e : Env) (out : PyPath) (cuda : Bool) : Result :=
  match checkOutputExists e out a.force with
  | some err => ⟨[], .fatal err⟩
  | none =>
    ⟨Event.readInputBytes a.input :: Event.decode cuda ::
      (clipEvents e.decOut a.rescale ++ [Event.saveAudio out a.rescale]), .ok⟩

/-- Compression-family pipeline body after the extension has been settled:
`check_output_exists`, model lookup, bandwidth check, load, convert,
`compress` (always invoked), then the extension-directed tail. -/
def compressRun (a : Args) (e : Env) (out : PyPath) (cuda : Bool) : Result :=
  match checkOutputExists e out a.force with
  | some err => ⟨[], .fatal err⟩
  | none =>
    let mn := modelNameOf a.hq
    let m := e.models mn
    if a.bandwidth ∈ m.targetBandwidths then
      let pre := [Event.lookupModel mn, Event.setBandwidth a.bandwidth,
        Event.loadWaveform a.input, Event.convertAudio m.sampleRate m.channels,
        Event.encode mn a.bandwidth a.lm cuda]
      if strToLower (PyPath.suffix out) = SUFFIX then
        ⟨pre ++ [Event.writeBytes out], .ok⟩
      else if strToLower (PyPath.suffix out) = ".pt" then
        ⟨pre ++ [Event.encodeEmbedding cuda, Event.saveEmbedding out], .ok⟩
      else if strToLower (PyPath.suffix out) = ".wav" then
        ⟨pre ++ Event.decode cuda ::
          (clipEvents e.decOut a.rescale ++ [Event.saveAudio out a.rescale]), .ok⟩
      else ⟨pre, .assertFailed⟩
    else ⟨[Event.lookupModel mn], .fatal .badBandwidth⟩

/-- Default decompression output:
`input.with_name(input.stem + decompress_suffix).with_suffix(".wav")`. -/
def defaultDecompressOut (a : Args) : PyPath :=
  (a.input.withName (a.input.stem ++ a.decompressSuffix)).withSuffix ".wav"

/-- `main()` without the timing wrapper: input-existence check, the
extension-driven branch, per-branch output defaulting and validation, and
the selected pipeline.  The `raisedError` leaf models the `ValueError`
CPython's `with_suffix` raises when defaulting the output of an input whose
final component has an empty name. -/
def mainCore (a : Args) (e : Env) : Result :=
  if e.ex a.input then
    let cuda := a.gpu && e.cudaAvailable
    if strToLower (PyPath.suffix a.input) = SUFFIX then
      match a.output with
      | none => decompressRun a e (defaultDecompressOut a) cuda
      | some o =>
        if strToLower (PyPath.suffix o) = ".wav" then decompressRun a e o cuda
        else ⟨[], .fatal .badExtDecompress⟩
    else
      match a.output with
      | none =>
        if a.input.name = "" then ⟨[], .raisedError⟩
        else compressRun a e (a.input.withSuffix SUFFIX) cuda
      | some o =>
        if legalCompressExt (strToLower (PyPath.suffix o)) then compressRun a e o cuda
        else ⟨[], .fatal .badExtCompress⟩
  else ⟨[], .fatal .inputMissing⟩

/-- `main()` (named `mainRun`; `main` is reserved in Lean): `mainCore` followed by the optional elapsed-time report, which
is only reached when the pipeline completed normally. -/
def mainRun (a : Args) (e : Env) : Result :=
  let r := mainCore a e
  match r.outcome with
  | .ok =>
    if a.time then
      ⟨r.trace ++ [Event.timeReport a.bandwidth a.hq a.lm (a.gpu && e.cudaAvailable)], .ok⟩
    else r
  | _ => r

/-- The effective output path: the explicit one when given, else the
mode-dependent default. -/
def resolvedOutput (a : Args) : PyPath :=
  if strToLower (PyPath.suffix a.input) = SUFFIX then
    match a.output with
    | some o => o
    | none => defaultDecompressOut a
  else
    match a.output with
    | some o => o
    | none => a.input.withSuffix SUFFIX

/-- The four pipelines of the spec, plus the illegal-extension case. -/
inductive Mode
  | decompress
  | toBitstream
  | toEmbedding
  | roundTrip
  | invalidCompress
deriving DecidableEq, Repr

/-- Mode Selector: the pure classification the branch structure of `main`
implements. -/
def modeOf (a : Args) : Mode :=
  if strToLower (PyPath.suffix a.input) = SUFFIX then .decompress
  else
    let s := strToLower (PyPath.suffix (resolvedOutput a))
    if s = SUFFIX then .toBitstream
    else if s = ".pt" then .toEmbedding
    else if s = ".wav" then .roundTrip
    else .invalidCompress

/-- Extension legality of the effective output for the chosen mode. -/
def extLegal (a : Args) : Bool :=
  let s := strToLower (PyPath.suffix (resolvedOutput a))
  match modeOf a with
  | .decompress => s == ".wav"
  | _ => legalCompressExt s

/-- The fatal checks of `main`, written as one flat list in the order the
code performs them: (1) input exists; (2) when an output was given
explicitly, its extension is legal for the mode; (3) the output's parent
directory exists; (4) the output does not already exist unless `--force`;
(5) compression family only: the bandwidth is supported by the selected
model. -/
def validate (a : Args) (e : Env) : Option Err :=
  if e.ex a.input then
    if strToLower (PyPath.suffix a.input) = SUFFIX then
      match a.output with
      | some o =>
        if strToLower (PyPath.suffix o) = ".wav" then
          checkOutputExists e o a.force
        else some .badExtDecompress
      | none => checkOutputExists e (defaultDecompressOut a) a.force
    else
      let extOk : Bool := match a.output with
        | some o => legalCompressExt (strToLower (PyPath.suffix o))
        | none => true
      if extOk then
        match checkOutputExists e (resolvedOutput a) a.force with
        | some err => some err
        | none =>
          if a.bandwidth ∈ (e.models (modelNameOf a.hq)).targetBandwidths then none
          else some .badBandwidth
      else some .badExtCompress
  else some .inputMissing

/-- The check order as the spec's Validator section states it: input exists,
then output parent, then overwrite guard, then (compression only) bandwidth
support, then (compression only) extension legality.  Written from the
spec's words, to be compared against the code's behaviour. -/
def claimOrderCheck (a : Args) (e : Env) : Option Err :=
  if e.ex a.input then
    if e.ex (resolvedOutput a).parent then
      if e.ex (resolvedOutput a) && !a.force then some .outputExists
      else if strToLower (PyPath.suffix a.input) = SUFFIX then none
      else if a.bandwidth ∈ (e.models (modelNameOf a.hq)).targetBandwidths then
        if legalCompressExt (strToLower (PyPath.suffix (resolvedOutput a))) then none
        else some .badExtCompress
      else some .badBandwidth
    else some .outDirMissing
  else some .inputMissing

/-- Number of (possibly overlapping) occurrences of `pat` as a substring. -/
def countOcc (pat s : String) : Nat :=
  ((List.range (s.data.length + 1)).filter
    (fun i => (s.data.drop i).take pat.data.length = pat.data)).length

/-- Is this event the elapsed-time report? -/
def isReportEv : Event → Bool
  | .timeReport _ _ _ _ => true
  | _ => false

/-- The trace without the elapsed-time report. -/
def obsTrace (r : Result) : List Event := r.trace.filter (fun ev => !isReportEv ev)

/-- Does the trace call `compress` (encode with quantization)? -/
def hasEncodeEv (t : List Event) : Bool :=
  t.any fun ev => match ev with | .encode _ _ _ _ => true | _ => false

/-- Does the trace call `model.encoder` (embedding only)? -/
def hasEmbedEv (t : List Event) : Bool :=
  t.any fun ev => match ev with | .encodeEmbedding _ => true | _ => false

/-- Does the trace call `decompress`? -/
def hasDecodeEv (t : List Event) : Bool :=
  t.any fun ev => match ev with | .decode _ => true | _ => false

/-- Does the trace write a raw bitstream file? -/
def hasWriteBytesEv (t : List Event) : Bool :=
  t.any fun ev => match ev with | .writeBytes _ => true | _ => false

/-- Does the trace call `save_audio`? -/
def hasSaveAudioEv (t : List Event) : Bool :=
  t.any fun ev => match ev with | .saveAudio _ _ => true | _ => false

/-- Does the trace print the clipping warning? -/
def hasWarnEv (t : List Event) : Bool :=
  t.any fun ev => match ev with | .warnClipping _ => true | _ => false

/-- Does the trace look a model up in the registry? -/
def hasLookupEv (t : List Event) : Bool :=
  t.any fun ev => match ev with | .lookupModel _ => true | _ => false

/-- Does the trace read the input bytes (`input.read_bytes()`)? -/
def hasReadBytesEv (t : List Event) : Bool :=
  t.any fun ev => match ev with | .readInputBytes _ => true | _ => false

/-- Does the trace load the input waveform (`torchaudio.load`)? -/
def hasLoadEv (t : List Event) : Bool :=
  t.any fun ev => match ev with | .loadWaveform _ => true | _ => false

/-- Does the trace resample/remix (`convert_audio`)? -/
def hasConvertEv (t : List Event) : Bool :=
  t.any fun ev => match ev with | .convertAudio _ _ => true | _ => false

/-- Does the trace read or write any file content? -/
def hasIOEv (t : List Event) : Bool :=
  t.any fun ev => match ev with
    | .readInputBytes _ | .loadWaveform _ | .writeBytes _
    | .saveEmbedding _ | .saveAudio _ _ => true
    | _ => false

/-- A baseline argument record with the parser's defaults
(`bandwidth 6`, all toggles off, decompress suffix `"_decompressed"`). -/
def baseArgs : Args :=
  { input := ⟨["sample.ecdc"]⟩, output := none, bandwidth := 6, hq := false,
    lm := false, force := false, decompressSuffix := "_decompressed",
    rescale := false, gpu := false, time := false }

/-- A registry in which every variant has the 24 kHz model's parameters. -/
def stdModels : String → ModelCfg := fun _ => ⟨24000, 1, [mkRat 3 2, 3, 6, 12, 24]⟩

/-- A concrete environment: the given paths exist, no CUDA, the standard
registry, and a fixed decoded waveform. -/
def envOf (l : List PyPath) (dec : List ℚ) : Env :=
  { ex := fun p => l.contains p, cudaAvailable := false,
    models := stdModels, decOut := dec }

/-! ### Helper lemmas about the path model -/

theorem splitFirstDot_nodot (l : List Char) (h : '.' ∉ l) : splitFirstDot l = none := by
  induction l with
  | nil => rfl
  | cons c cs ih =>
    have hc : ¬ c = '.' := by
      intro hceq; exact h (by rw [hceq]; exact List.mem_cons_self _ _)
    have hcs : '.' ∉ cs := fun hm => h (List.mem_cons_of_mem c hm)
    simp [splitFirstDot, hc, ih hcs]

theorem splitFirstDot_append (a b : List Char) (h : '.' ∉ a) :
    splitFirstDot (a ++ '.' :: b) = some (a, b) := by
  induction a with
  | nil => simp [splitFirstDot]
  | cons c cs ih =>
    have hc : ¬ c = '.' := by
      intro hceq; exact h (by rw [hceq]; exact List.mem_cons_self _ _)
    have hcs : '.' ∉ cs := fun hm => h (List.mem_cons_of_mem c hm)
    simp [splitFirstDot, hc, ih hcs]

theorem str_ne_empty_iff (s : String) : s ≠ "" ↔ s.data ≠ [] := by
  constructor
  · intro h hd
    exact h (String.ext hd)
  · intro h hs
    exact h (by rw [hs])

theorem str_append_ne_empty_left (s t : String) (h : s ≠ "") : s ++ t ≠ "" := by
  rw [str_ne_empty_iff] at h ⊢
  rw [String.data_append]
  simp [h]

theorem pathStem_ne_empty (s : String) (h : s ≠ "") : pathStem s ≠ "" := by
  unfold pathStem
  cases hsp : splitFirstDot s.data.reverse with
  | none => exact h
  | some q =>
    dsimp only
    by_cases hq : q.1 = [] ∨ q.2 = []
    · rw [if_pos hq]; exact h
    · rw [if_neg hq]
      push_neg at hq
      rw [str_ne_empty_iff]
      simpa using hq.2

theorem pathStem_ne_empty_of_suffix (s : String) (h : pathSuffix s ≠ "") :
    pathStem s ≠ "" := by
  unfold pathSuffix at h
  unfold pathStem
  cases hsp : splitFirstDot s.data.reverse with
  | none => rw [hsp] at h; exact absurd rfl h
  | some q =>
    rw [hsp] at h
    dsimp only at h ⊢
    by_cases hq : q.1 = [] ∨ q.2 = []
    · rw [if_pos hq] at h; exact absurd rfl h
    · rw [if_neg hq]
      push_neg at hq
      rw [str_ne_empty_iff]
      simpa using hq.2

theorem pathStem_nodot (s : String) (h : '.' ∉ s.data) : pathStem s = s := by
  unfold pathStem
  rw [splitFirstDot_nodot _ (fun hm => h (List.mem_reverse.mp hm))]

theorem pathSuffix_append_ext (y : String) (cs : List Char)
    (hy : y ≠ "") (hcs : cs ≠ []) (hnd : '.' ∉ cs) :
    pathSuffix (y ++ ⟨'.' :: cs⟩) = ⟨'.' :: cs⟩ := by
  have hdata : (y ++ (⟨'.' :: cs⟩ : String)).data = y.data ++ '.' :: cs := by
    rw [String.data_append]
  unfold pathSuffix
  rw [hdata]
  have hrev : (y.data ++ '.' :: cs).reverse = cs.reverse ++ '.' :: y.data.reverse := by
    rw [List.reverse_append, List.reverse_cons, List.append_assoc]
    rfl
  rw [hrev, splitFirstDot_append _ _ (fun hm => hnd (List.mem_reverse.mp hm))]
  have h1 : ¬ (cs.reverse = [] ∨ y.data.reverse = []) := by
    push_neg
    constructor
    · simpa using hcs
    · simpa using (str_ne_empty_iff y).mp hy
  dsimp only
  rw [if_neg h1]
  simp

theorem withName_name (p : PyPath) (n : String) : (p.withName n).name = n := by
  simp [PyPath.withName, PyPath.name, List.getLastD_concat]

theorem withSuffix_name (p : PyPath) (suf : String) :
    (p.withSuffix suf).name = pathStem p.name ++ suf := by
  simp [PyPath.withSuffix, withName_name, withSuffixName]

theorem suffix_withSuffix_SUFFIX (p : PyPath) (h : p.name ≠ "") :
    PyPath.suffix (p.withSuffix SUFFIX) = SUFFIX := by
  rw [PyPath.suffix, withSuffix_name]
  have hy : pathStem p.name ≠ "" := pathStem_ne_empty _ h
  have hS : (SUFFIX : String) = ⟨'.' :: ['e', 'c', 'd', 'c']⟩ := rfl
  rw [hS]
  exact pathSuffix_append_ext _ _ hy (by simp) (by decide)

theorem suffix_defaultDecompressOut (a : Args)
    (h : strToLower (PyPath.suffix a.input) = SUFFIX) :
    PyPath.suffix (defaultDecompressOut a) = ".wav" := by
  have hsuf : PyPath.suffix a.input ≠ "" := by
    intro h0; rw [h0] at h; exact absurd h (by decide)
  have hstem : pathStem a.input.name ≠ "" := pathStem_ne_empty_of_suffix _ hsuf
  rw [defaultDecompressOut, PyPath.suffix, withSuffix_name, withName_name]
  have hy : pathStem (PyPath.stem a.input ++ a.decompressSuffix) ≠ "" := by
    apply pathStem_ne_empty
    exact str_append_ne_empty_left _ _ hstem
  have hW : (".wav" : String) = ⟨'.' :: ['w', 'a', 'v']⟩ := rfl
  rw [hW]
  exact pathSuffix_append_ext _ _ hy (by simp) (by decide)

/-! ### Helper lemmas about the timing wrapper -/

theorem mainRun_outcome (a : Args) (e : Env) :
    (mainRun a e).outcome = (mainCore a e).outcome := by
  unfold mainRun
  cases h : (mainCore a e).outcome <;> simp [h]
  split
  · rfl
  · exact h

theorem mainRun_obsTrace (a : Args) (e : Env) :
    obsTrace (mainRun a e) = (mainCore a e).trace.filter (fun ev => !isReportEv ev) := by
  unfold mainRun obsTrace
  cases h : (mainCore a e).outcome <;> simp [h]
  split <;> simp [List.filter_append, isReportEv]

theorem mainRun_any (a : Args) (e : Env) (f : Event → Bool)
    (hf : ∀ b hq lm cuda, f (Event.timeReport b hq lm cuda) = false) :
    (mainRun a e).trace.any f = (mainCore a e).trace.any f := by
  unfold mainRun
  cases h : (mainCore a e).outcome <;> simp [h]
  split
  · simp [List.any_append, hf]
  · rfl

theorem mainRun_eq_core (a : Args) (e : Env) (h : (mainCore a e).outcome ≠ .ok) :
    mainRun a e = mainCore a e := by
  unfold mainRun
  cases ho : (mainCore a e).outcome
  · exact absurd ho h
  all_goals simp [ho]

/-! ### Reduction lemmas for the two pipeline bodies -/

theorem checkOutputExists_some (e : Env) (out : PyPath) (force : Bool)
    (hex : e.ex out = true) (hf : force = false) :
    ∃ err, checkOutputExists e out force = some err := by
  unfold checkOutputExists
  cases hp : e.ex out.parent <;> simp [hp, hex, hf]

theorem decompressRun_fatal (a : Args) (e : Env) (out : PyPath) (cuda : Bool)
    (err : Err) (h : checkOutputExists e out a.force = some err) :
    decompressRun a e out cuda = ⟨[], .fatal err⟩ := by
  simp [decompressRun, h]

theorem compressRun_fatal (a : Args) (e : Env) (out : PyPath) (cuda : Bool)
    (err : Err) (h : checkOutputExists e out a.force = some err) :
    compressRun a e out cuda = ⟨[], .fatal err⟩ := by
  simp [compressRun, h]

theorem compressRun_of_bad_bw (a : Args) (e : Env) (out : PyPath) (cuda : Bool)
    (hbw : a.bandwidth ∉ (e.models (modelNameOf a.hq)).targetBandwidths) :
    (∃ err, compressRun a e out cuda = ⟨[], .fatal err⟩) ∨
    compressRun a e out cuda =
      ⟨[Event.lookupModel (modelNameOf a.hq)], .fatal .badBandwidth⟩ := by
  unfold compressRun
  cases hc : checkOutputExists e out a.force with
  | none => right; simp [hbw]
  | some err => left; exact ⟨err, by simp⟩

/-- C5: for every Decompress-mode invocation with an explicitly given output
path whose extension (case-insensitive) is not `.wav`, the process
terminates with a diagnostic and non-zero status before any read of the
input file's contents (the trace is empty, so in particular no event reads
the input bytes). -/
theorem C5_decompress_bad_ext (a : Args) (e : Env) (o : PyPath)
    (hdec : strToLower (PyPath.suffix a.input) = SUFFIX)
    (hout : a.output = some o)
    (hbad : strToLower (PyPath.suffix o) ≠ ".wav") :
    (mainRun a e).trace = [] ∧ ∃ err, (mainRun a e).outcome = .fatal err := by
  have hcore : ∃ err, mainCore a e = ⟨[], .fatal err⟩ := by
    unfold mainCore
    cases hin : e.ex a.input
    · exact ⟨.inputMissing, by simp⟩
    · exact ⟨.badExtDecompress, by simp [hdec, hout, hbad]⟩
  obtain ⟨err, herr⟩ := hcore
  have hne : (mainCore a e).outcome ≠ .ok := by rw [herr]; simp
  rw [mainRun_eq_core a e hne, herr]
  exact ⟨rfl, err, rfl⟩

/-- C5 witness at a concrete invocation (`sample.ecdc` to `sample.mp3`). -/
theorem C5_witness :
    strToLower (PyPath.suffix (baseArgs.input)) = SUFFIX ∧
    ((mainRun { baseArgs with output := some ⟨["sample.mp3"]⟩ } (envOf [⟨["sample.ecdc"]⟩, ⟨[]⟩] [])).trace = [] ∧
      ∃ err, (mainRun { baseArgs with output := some ⟨["sample.mp3"]⟩ } (envOf [⟨["sample.ecdc"]⟩, ⟨[]⟩] [])).outcome = .fatal err) :=
  ⟨by decide,
   C5_decompress_bad_ext _ _ ⟨["sample.mp3"]⟩ (by decide) rfl (by decide)⟩

/-- A pre-existing output with `--force` unset makes `mainCore` stop with an
empty trace and a non-`ok` outcome, in every mode. -/
theorem mainCore_overwrite_guard (a : Args) (e : Env)
    (hex : e.ex (resolvedOutput a) = true) (hf : a.force = false) :
    (mainCore a e).trace = [] ∧ (mainCore a e).outcome ≠ .ok := by
  unfold mainCore
  cases hin : e.ex a.input
  · simp
  · simp only [hin]
    by_cases hdec : strToLower (PyPath.suffix a.input) = SUFFIX
    · rw [if_pos hdec]
      cases ho : a.output with
      | none =>
        have hro : resolvedOutput a = defaultDecompressOut a := by
          simp [resolvedOutput, hdec, ho]
        obtain ⟨err, herr⟩ :=
          checkOutputExists_some e (defaultDecompressOut a) a.force (by rw [← hro]; exact hex) hf
        rw [decompressRun_fatal a e _ _ err herr]
        simp
      | some o =>
        dsimp only
        by_cases hw : strToLower (PyPath.suffix o) = ".wav"
        · have hro : resolvedOutput a = o := by simp [resolvedOutput, hdec, ho]
          obtain ⟨err, herr⟩ :=
            checkOutputExists_some e o a.force (by rw [← hro]; exact hex) hf
          rw [if_pos hw, decompressRun_fatal a e o _ err herr]
          simp
        · rw [if_neg hw]
          simp
    · rw [if_neg hdec]
      cases ho : a.output with
      | none =>
        by_cases hn : a.input.name = ""
        · simp [hn]
        · have hro : resolvedOutput a = a.input.withSuffix SUFFIX := by
            simp [resolvedOutput, hdec, ho]
          obtain ⟨err, herr⟩ :=
            checkOutputExists_some e (a.input.withSuffix SUFFIX) a.force (by rw [← hro]; exact hex) hf
          rw [if_neg hn, compressRun_fatal a e _ _ err herr]
          simp
      | some o =>
        dsimp only
        by_cases hl : legalCompressExt (strToLower (PyPath.suffix o)) = true
        · have hro : resolvedOutput a = o := by simp [resolvedOutput, hdec, ho]
          obtain ⟨err, herr⟩ :=
            checkOutputExists_some e o a.force (by rw [← hro]; exact hex) hf
          rw [if_pos hl, compressRun_fatal a e o _ err herr]
          simp
        · rw [if_neg hl]
          simp

/-- C6: whenever the resolved output path already exists and force-overwrite
is unset, the invocation does not exit 0 and its trace is empty: nothing is
written and no codec operation runs. -/
theorem C6_no_overwrite (a : Args) (e : Env)
    (hex : e.ex (resolvedOutput a) = true) (hf : a.force = false) :
    (mainRun a e).trace = [] ∧ (mainRun a e).outcome ≠ .ok := by
  obtain ⟨ht, hne⟩ := mainCore_overwrite_guard a e hex hf
  rw [mainRun_eq_core a e hne]
  exact ⟨ht, hne⟩

/-- C6 witness at a concrete invocation. -/
theorem C6_witness :
    (envOf [⟨["in.wav"]⟩, ⟨[]⟩, ⟨["out.wav"]⟩] []).ex
        (resolvedOutput { baseArgs with input := ⟨["in.wav"]⟩, output := some ⟨["out.wav"]⟩ }) = true ∧
    ((mainRun { baseArgs with input := ⟨["in.wav"]⟩, output := some ⟨["out.wav"]⟩ }
        (envOf [⟨["in.wav"]⟩, ⟨[]⟩, ⟨["out.wav"]⟩] [])).trace = [] ∧
      (mainRun { baseArgs with input := ⟨["in.wav"]⟩, output := some ⟨["out.wav"]⟩ }
        (envOf [⟨["in.wav"]⟩, ⟨[]⟩, ⟨["out.wav"]⟩] [])).outcome ≠ .ok) :=
  ⟨by decide, C6_no_overwrite _ _ (by decide) rfl⟩

/-- C7: a compression-family invocation whose bandwidth is not in the
selected model's supported set does not exit 0 and never loads the
waveform, never resamples, and never encodes. -/
theorem C7_bad_bandwidth (a : Args) (e : Env)
    (hcomp : strToLower (PyPath.suffix a.input) ≠ SUFFIX)
    (hbw : a.bandwidth ∉ (e.models (modelNameOf a.hq)).targetBandwidths) :
    (mainRun a e).outcome ≠ .ok ∧
    hasLoadEv (mainRun a e).trace = false ∧
    hasConvertEv (mainRun a e).trace = false ∧
    hasEncodeEv (mainRun a e).trace = false := by
  have hcore : ((mainCore a e).trace = [] ∨
      (mainCore a e).trace = [Event.lookupModel (modelNameOf a.hq)]) ∧
      (mainCore a e).outcome ≠ .ok := by
    unfold mainCore
    cases hin : e.ex a.input
    · simp
    · simp only [hin]
      rw [if_neg hcomp]
      cases ho : a.output with
      | none =>
        by_cases hn : a.input.name = ""
        · simp [hn]
        · rw [if_neg hn]
          rcases compressRun_of_bad_bw a e (a.input.withSuffix SUFFIX)
              (a.gpu && e.cudaAvailable) hbw with ⟨err, hcr⟩ | hcr <;>
            rw [hcr] <;> simp
      | some o =>
        dsimp only
        by_cases hl : legalCompressExt (strToLower (PyPath.suffix o)) = true
        · rw [if_pos hl]
          rcases compressRun_of_bad_bw a e o (a.gpu && e.cudaAvailable) hbw with
              ⟨err, hcr⟩ | hcr <;>
            rw [hcr] <;> simp
        · rw [if_neg hl]
          simp
  obtain ⟨htr, hne⟩ := hcore
  rw [mainRun_eq_core a e hne]
  refine ⟨hne, ?_, ?_, ?_⟩ <;> rcases htr with h | h <;> rw [h] <;> rfl

/-- C7 witness at a concrete invocation (bandwidth 5 is unsupported). -/
theorem C7_witness :
    strToLower (PyPath.suffix (PyPath.mk ["in.wav"])) ≠ SUFFIX ∧
    (5 : ℚ) ∉ ((envOf [⟨["in.wav"]⟩, ⟨[]⟩] []).models (modelNameOf false)).targetBandwidths ∧
    ((mainRun { baseArgs with input := ⟨["in.wav"]⟩, bandwidth := 5 }
        (envOf [⟨["in.wav"]⟩, ⟨[]⟩] [])).outcome ≠ .ok ∧
      hasLoadEv (mainRun { baseArgs with input := ⟨["in.wav"]⟩, bandwidth := 5 }
        (envOf [⟨["in.wav"]⟩, ⟨[]⟩] [])).trace = false ∧
      hasConvertEv (mainRun { baseArgs with input := ⟨["in.wav"]⟩, bandwidth := 5 }
        (envOf [⟨["in.wav"]⟩, ⟨[]⟩] [])).trace = false ∧
      hasEncodeEv (mainRun { baseArgs with input := ⟨["in.wav"]⟩, bandwidth := 5 }
        (envOf [⟨["in.wav"]⟩, ⟨[]⟩] [])).trace = false) :=
  ⟨by decide, by decide, C7_bad_bandwidth _ _ (by decide) (by decide)⟩

/-- Every event `check_clipping` emits is a clipping warning. -/
theorem clipEvents_mem (w : List ℚ) (r : Bool) (x : Event)
    (hx : x ∈ clipEvents w r) : ∃ q, x = Event.warnClipping q := by
  unfold clipEvents at hx
  split at hx
  · simp at hx
  · split at hx
    · simp at hx
      exact ⟨maxAbs w, hx⟩
    · simp at hx

/-- Warning presence in `check_clipping` output, as a boolean equation. -/
theorem clipEvents_warn (w : List ℚ) (r : Bool) :
    hasWarnEv (clipEvents w r) = (!r && decide (maxAbs w > mkRat 99 100)) := by
  unfold clipEvents hasWarnEv
  cases r <;> simp
  split <;> simp_all

/-- The decompression pipeline body never emits a model lookup. -/
theorem decompressRun_no_lookup (a : Args) (e : Env) (out : PyPath) (cuda : Bool) :
    hasLookupEv (decompressRun a e out cuda).trace = false := by
  unfold decompressRun hasLookupEv
  cases hc : checkOutputExists e out a.force with
  | some err => rfl
  | none =>
    dsimp only
    simp [List.any_append]
    intro x hx
    obtain ⟨q, rfl⟩ := clipEvents_mem _ _ _ hx
    rfl

/-- The compression pipeline body never reads the input bytes. -/
theorem compressRun_no_read (a : Args) (e : Env) (out : PyPath) (cuda : Bool) :
    hasReadBytesEv (compressRun a e out cuda).trace = false := by
  unfold compressRun hasReadBytesEv
  cases hc : checkOutputExists e out a.force with
  | some err => rfl
  | none =>
    dsimp only
    split
    · split
      · simp [List.any_append]
      · split
        · simp [List.any_append]
        · split
          · simp [List.any_append]
            intro x hx
            obtain ⟨q, rfl⟩ := clipEvents_mem _ _ _ hx
            rfl
          · simp [List.any_append]
    · rfl

/-- In decompress mode the model registry is never consulted. -/
theorem mainCore_decompress_no_lookup (a : Args) (e : Env)
    (hdec : strToLower (PyPath.suffix a.input) = SUFFIX) :
    hasLookupEv (mainCore a e).trace = false := by
  unfold mainCore
  cases hin : e.ex a.input
  · rfl
  · simp only [hin]
    rw [if_pos hdec]
    cases ho : a.output with
    | none =>
      dsimp only
      exact decompressRun_no_lookup a e _ _
    | some o =>
      dsimp only
      by_cases hw : strToLower (PyPath.suffix o) = ".wav"
      · rw [if_pos hw]
        exact decompressRun_no_lookup a e _ _
      · rw [if_neg hw]
        rfl

/-- The timing wrapper adds no model lookup. -/
theorem mainRun_hasLookup (a : Args) (e : Env) :
    hasLookupEv (mainRun a e).trace = hasLookupEv (mainCore a e).trace := by
  unfold hasLookupEv
  exact mainRun_any a e _ (fun _ _ _ _ => rfl)

/-- The timing wrapper adds no input-bytes read. -/
theorem mainRun_hasRead (a : Args) (e : Env) :
    hasReadBytesEv (mainRun a e).trace = hasReadBytesEv (mainCore a e).trace := by
  unfold hasReadBytesEv
  exact mainRun_any a e _ (fun _ _ _ _ => rfl)

/-- The compression family never reads the input bytes directly. -/
theorem mainCore_compress_no_read (a : Args) (e : Env)
    (hcomp : strToLower (PyPath.suffix a.input) ≠ SUFFIX) :
    hasReadBytesEv (mainCore a e).trace = false := by
  unfold mainCore
  cases hin : e.ex a.input
  · rfl
  · simp only [hin]
    rw [if_neg hcomp]
    cases ho : a.output with
    | none =>
      dsimp only
      by_cases hn : a.input.name = ""
      · rw [if_pos hn]; rfl
      · rw [if_neg hn]; exact compressRun_no_read a e _ _
    | some o =>
      dsimp only
      by_cases hl : legalCompressExt (strToLower (PyPath.suffix o)) = true
      · rw [if_pos hl]; exact compressRun_no_read a e _ _
      · rw [if_neg hl]; rfl

/-- C9: the Mode Selector picks Decompress exactly when the input extension
lowercases to the bitstream suffix; in that case no model lookup ever
happens, and otherwise the decompress pipeline's input-bytes read never
happens. -/
theorem C9_mode_select (a : Args) (e : Env) :
    (modeOf a = .decompress ↔ strToLower (PyPath.suffix a.input) = SUFFIX) ∧
    (strToLower (PyPath.suffix a.input) = SUFFIX →
      hasLookupEv (mainRun a e).trace = false) ∧
    (strToLower (PyPath.suffix a.input) ≠ SUFFIX →
      hasReadBytesEv (mainRun a e).trace = false) := by
  refine ⟨?_, ?_, ?_⟩
  · by_cases hdec : strToLower (PyPath.suffix a.input) = SUFFIX
    · simp [modeOf, hdec]
    · simp only [modeOf, if_neg hdec]
      constructor
      · intro h
        exfalso
        revert h
        split
        · simp
        · split
          · simp
          · split <;> simp
      · intro h
        exact absurd h hdec
  · intro hdec
    rw [mainRun_hasLookup]
    exact mainCore_decompress_no_lookup a e hdec
  · intro hcomp
    rw [mainRun_hasRead]
    exact mainCore_compress_no_read a e hcomp

/-- C9 witness: `.ECDC` and `.Ecdc` inputs select Decompress (no model
lookup on the run), a `.wav` input does not. -/
theorem C9_witness :
    modeOf { baseArgs with input := ⟨["x.ECDC"]⟩ } = .decompress ∧
    modeOf { baseArgs with input := ⟨["x.Ecdc"]⟩ } = .decompress ∧
    hasLookupEv (mainRun { baseArgs with input := ⟨["x.ECDC"]⟩ }
      (envOf [⟨["x.ECDC"]⟩, ⟨[]⟩] [])).trace = false ∧
    modeOf { baseArgs with input := ⟨["y.wav"]⟩ } ≠ .decompress :=
  ⟨(C9_mode_select { baseArgs with input := ⟨["x.ECDC"]⟩ } (envOf [] [])).1.mpr (by decide),
   (C9_mode_select { baseArgs with input := ⟨["x.Ecdc"]⟩ } (envOf [] [])).1.mpr (by decide),
   (C9_mode_select { baseArgs with input := ⟨["x.ECDC"]⟩ }
      (envOf [⟨["x.ECDC"]⟩, ⟨[]⟩] [])).2.1 (by decide),
   fun h => absurd ((C9_mode_select { baseArgs with input := ⟨["y.wav"]⟩ } (envOf [] [])).1.mp h)
     (by decide)⟩

/-- In decompress mode `mainCore` reduces to the decompression branch. -/
theorem mainCore_decompress_eq (a : Args) (e : Env)
    (hdec : strToLower (PyPath.suffix a.input) = SUFFIX) :
    mainCore a e =
      if e.ex a.input then
        match a.output with
        | none => decompressRun a e (defaultDecompressOut a) (a.gpu && e.cudaAvailable)
        | some o =>
          if strToLower (PyPath.suffix o) = ".wav" then
            decompressRun a e o (a.gpu && e.cudaAvailable)
          else ⟨[], .fatal .badExtDecompress⟩
      else ⟨[], .fatal .inputMissing⟩ := by
  unfold mainCore
  cases hin : e.ex a.input <;> simp only [hin] <;> simp
  intro h
  exact absurd hdec h

/-- C10: in Decompress mode the bandwidth, hq and lm flags have no effect:
the outcome and the non-report trace are unchanged, and no model-registry
lookup occurs at all. -/
theorem C10_decompress_flag_independence (a : Args) (e : Env) (b' : ℚ) (hq' lm' : Bool)
    (hdec : strToLower (PyPath.suffix a.input) = SUFFIX) :
    (mainRun { a with bandwidth := b', hq := hq', lm := lm' } e).outcome =
      (mainRun a e).outcome ∧
    obsTrace (mainRun { a with bandwidth := b', hq := hq', lm := lm' } e) =
      obsTrace (mainRun a e) ∧
    hasLookupEv (mainRun a e).trace = false := by
  have hcore : mainCore { a with bandwidth := b', hq := hq', lm := lm' } e = mainCore a e := by
    rw [mainCore_decompress_eq { a with bandwidth := b', hq := hq', lm := lm' } e hdec,
        mainCore_decompress_eq a e hdec]
    rfl
  refine ⟨?_, ?_, ?_⟩
  · rw [mainRun_outcome, mainRun_outcome, hcore]
  · rw [mainRun_obsTrace, mainRun_obsTrace, hcore]
  · rw [mainRun_hasLookup]
    exact mainCore_decompress_no_lookup a e hdec

/-- C10 witness at a concrete decompression with maximally different flags. -/
theorem C10_witness :
    (mainRun { baseArgs with bandwidth := 24, hq := true, lm := true }
        (envOf [⟨["sample.ecdc"]⟩, ⟨[]⟩] [])).outcome =
      (mainRun baseArgs (envOf [⟨["sample.ecdc"]⟩, ⟨[]⟩] [])).outcome ∧
    obsTrace (mainRun { baseArgs with bandwidth := 24, hq := true, lm := true }
        (envOf [⟨["sample.ecdc"]⟩, ⟨[]⟩] [])) =
      obsTrace (mainRun baseArgs (envOf [⟨["sample.ecdc"]⟩, ⟨[]⟩] [])) ∧
    hasLookupEv (mainRun baseArgs (envOf [⟨["sample.ecdc"]⟩, ⟨[]⟩] [])).trace = false :=
  C10_decompress_flag_independence baseArgs (envOf [⟨["sample.ecdc"]⟩, ⟨[]⟩] []) 24 true true
    (by decide)

/-- The timing wrapper adds no decode event. -/
theorem mainRun_hasDecode (a : Args) (e : Env) :
    hasDecodeEv (mainRun a e).trace = hasDecodeEv (mainCore a e).trace := by
  unfold hasDecodeEv
  exact mainRun_any a e _ (fun _ _ _ _ => rfl)

/-- The timing wrapper adds no clipping warning. -/
theorem mainRun_hasWarn (a : Args) (e : Env) :
    hasWarnEv (mainRun a e).trace = hasWarnEv (mainCore a e).trace := by
  unfold hasWarnEv
  exact mainRun_any a e _ (fun _ _ _ _ => rfl)

/-- The timing wrapper adds no `save_audio` call. -/
theorem mainRun_hasSaveAudio (a : Args) (e : Env) :
    hasSaveAudioEv (mainRun a e).trace = hasSaveAudioEv (mainCore a e).trace := by
  unfold hasSaveAudioEv
  exact mainRun_any a e _ (fun _ _ _ _ => rfl)

/-- Decode analysis for the compression body: either no decode happens, or
the run is the round-trip tail - decode, clipping check, `save_audio` - and
the outcome is `ok`. -/
theorem compressRun_decode_cases (a : Args) (e : Env) (out : PyPath) (cuda : Bool) :
    hasDecodeEv (compressRun a e out cuda).trace = false ∨
    ∃ pre o2, (compressRun a e out cuda).trace =
        pre ++ Event.decode cuda ::
          (clipEvents e.decOut a.rescale ++ [Event.saveAudio o2 a.rescale]) ∧
      hasWarnEv pre = false ∧ (compressRun a e out cuda).outcome = .ok := by
  unfold compressRun
  cases hc : checkOutputExists e out a.force with
  | some err => left; rfl
  | none =>
    dsimp only
    by_cases hbw : a.bandwidth ∈ (e.models (modelNameOf a.hq)).targetBandwidths
    · rw [if_pos hbw]
      by_cases h1 : strToLower (PyPath.suffix out) = SUFFIX
      · rw [if_pos h1]; left; rfl
      · rw [if_neg h1]
        by_cases h2 : strToLower (PyPath.suffix out) = ".pt"
        · rw [if_pos h2]; left; rfl
        · rw [if_neg h2]
          by_cases h3 : strToLower (PyPath.suffix out) = ".wav"
          · rw [if_pos h3]
            right
            exact ⟨[Event.lookupModel (modelNameOf a.hq), Event.setBandwidth a.bandwidth,
              Event.loadWaveform a.input,
              Event.convertAudio (e.models (modelNameOf a.hq)).sampleRate
                (e.models (modelNameOf a.hq)).channels,
              Event.encode (modelNameOf a.hq) a.bandwidth a.lm cuda], out, rfl, rfl, rfl⟩
          · rw [if_neg h3]; left; rfl
    · rw [if_neg hbw]; left; rfl

/-- Decode analysis for the whole driver core. -/
theorem mainCore_decode_cases (a : Args) (e : Env) :
    hasDecodeEv (mainCore a e).trace = false ∨
    ∃ pre out, (mainCore a e).trace =
        pre ++ Event.decode (a.gpu && e.cudaAvailable) ::
          (clipEvents e.decOut a.rescale ++ [Event.saveAudio out a.rescale]) ∧
      hasWarnEv pre = false ∧ (mainCore a e).outcome = .ok := by
  unfold mainCore
  cases hin : e.ex a.input
  · left; rfl
  · simp only [hin]
    by_cases hdec : strToLower (PyPath.suffix a.input) = SUFFIX
    · rw [if_pos hdec]
      cases ho : a.output with
      | none =>
        dsimp only
        unfold decompressRun
        cases hc : checkOutputExists e (defaultDecompressOut a) a.force with
        | some err => left; rfl
        | none =>
          right
          exact ⟨[Event.readInputBytes a.input], defaultDecompressOut a, rfl, rfl, rfl⟩
      | some o =>
        dsimp only
        by_cases hw : strToLower (PyPath.suffix o) = ".wav"
        · rw [if_pos hw]
          unfold decompressRun
          cases hc : checkOutputExists e o a.force with
          | some err => left; rfl
          | none =>
            right
            exact ⟨[Event.readInputBytes a.input], o, rfl, rfl, rfl⟩
        · rw [if_neg hw]; left; rfl
    · rw [if_neg hdec]
      cases ho : a.output with
      | none =>
        dsimp only
        by_cases hn : a.input.name = ""
        · rw [if_pos hn]; left; rfl
        · rw [if_neg hn]; exact compressRun_decode_cases a e _ _
      | some o =>
        dsimp only
        by_cases hl : legalCompressExt (strToLower (PyPath.suffix o)) = true
        · rw [if_pos hl]; exact compressRun_decode_cases a e _ _
        · rw [if_neg hl]; left; rfl

/-- C8: whenever a decode happens (Decompress or CompressRoundTrip), the
clipping warning appears exactly when rescale is unset and the decoded peak
exceeds 0.99, and the output is written (`save_audio` runs, outcome 0) in
every case. -/
theorem C8_clipping (a : Args) (e : Env)
    (hdecd : hasDecodeEv (mainRun a e).trace = true) :
    (hasWarnEv (mainRun a e).trace = true ↔
      (a.rescale = false ∧ maxAbs e.decOut > mkRat 99 100)) ∧
    hasSaveAudioEv (mainRun a e).trace = true ∧
    (mainRun a e).outcome = .ok := by
  have hdc : hasDecodeEv (mainCore a e).trace = true := by
    rw [← mainRun_hasDecode]; exact hdecd
  rcases mainCore_decode_cases a e with hfalse | ⟨pre, out, htr, hpre, hok⟩
  · rw [hdc] at hfalse; cases hfalse
  · refine ⟨?_, ?_, ?_⟩
    · rw [mainRun_hasWarn, htr]
      unfold hasWarnEv at hpre ⊢
      simp only [List.any_append, List.any_cons, hpre]
      have hcw := clipEvents_warn e.decOut a.rescale
      unfold hasWarnEv at hcw
      rw [hcw]
      cases a.rescale <;> simp
    · rw [mainRun_hasSaveAudio, htr]
      unfold hasSaveAudioEv
      simp [List.any_append]
    · rw [mainRun_outcome, hok]

/-- C8 witness: decompressing with a decoded peak of 1.2 and rescale unset
warns and still writes the output. -/
theorem C8_witness :
    hasDecodeEv (mainRun baseArgs (envOf [⟨["sample.ecdc"]⟩, ⟨[]⟩] [mkRat 6 5])).trace = true ∧
    ((hasWarnEv (mainRun baseArgs (envOf [⟨["sample.ecdc"]⟩, ⟨[]⟩] [mkRat 6 5])).trace = true ↔
        (baseArgs.rescale = false ∧ maxAbs (envOf [⟨["sample.ecdc"]⟩, ⟨[]⟩] [mkRat 6 5]).decOut > mkRat 99 100)) ∧
      hasSaveAudioEv (mainRun baseArgs (envOf [⟨["sample.ecdc"]⟩, ⟨[]⟩] [mkRat 6 5])).trace = true ∧
      (mainRun baseArgs (envOf [⟨["sample.ecdc"]⟩, ⟨[]⟩] [mkRat 6 5])).outcome = .ok) :=
  ⟨by decide, C8_clipping baseArgs (envOf [⟨["sample.ecdc"]⟩, ⟨[]⟩] [mkRat 6 5]) (by decide)⟩

/-- The timing wrapper adds no file-content I/O event. -/
theorem mainRun_hasIO (a : Args) (e : Env) :
    hasIOEv (mainRun a e).trace = hasIOEv (mainCore a e).trace := by
  unfold hasIOEv
  exact mainRun_any a e _ (fun _ _ _ _ => rfl)

/-- In decompress mode the Mode Selector yields `decompress`. -/
theorem modeOf_decompress (a : Args)
    (hdec : strToLower (PyPath.suffix a.input) = SUFFIX) : modeOf a = .decompress := by
  simp [modeOf, hdec]

/-- Outside decompress mode, extension legality is the compression-family
check on the resolved output. -/
theorem extLegal_of_not_decompress (a : Args)
    (hcomp : strToLower (PyPath.suffix a.input) ≠ SUFFIX) :
    extLegal a = legalCompressExt (strToLower (PyPath.suffix (resolvedOutput a))) := by
  unfold extLegal
  cases hm : modeOf a
  case decompress =>
    exfalso
    unfold modeOf at hm
    rw [if_neg hcomp] at hm
    revert hm
    dsimp only
    split
    · simp
    · split
      · simp
      · split <;> simp
  all_goals rfl

/-- In decompress mode, extension legality is the `.wav` check on the
resolved output. -/
theorem extLegal_of_decompress (a : Args)
    (hdec : strToLower (PyPath.suffix a.input) = SUFFIX) :
    extLegal a = (strToLower (PyPath.suffix (resolvedOutput a)) == ".wav") := by
  unfold extLegal
  rw [modeOf_decompress a hdec]

/-- The decompression body never fails an assertion. -/
theorem decompressRun_no_assert (a : Args) (e : Env) (out : PyPath) (cuda : Bool) :
    (decompressRun a e out cuda).outcome ≠ .assertFailed := by
  unfold decompressRun
  cases checkOutputExists e out a.force <;> simp

/-- With a legal output extension the compression body never fails the
`.wav` assertion. -/
theorem compressRun_no_assert (a : Args) (e : Env) (out : PyPath) (cuda : Bool)
    (hleg : legalCompressExt (strToLower (PyPath.suffix out)) = true) :
    (compressRun a e out cuda).outcome ≠ .assertFailed := by
  unfold compressRun
  cases hc : checkOutputExists e out a.force with
  | some err => simp
  | none =>
    dsimp only
    by_cases hbw : a.bandwidth ∈ (e.models (modelNameOf a.hq)).targetBandwidths
    · rw [if_pos hbw]
      by_cases h1 : strToLower (PyPath.suffix out) = SUFFIX
      · rw [if_pos h1]; simp
      · rw [if_neg h1]
        by_cases h2 : strToLower (PyPath.suffix out) = ".pt"
        · rw [if_pos h2]; simp
        · rw [if_neg h2]
          by_cases h3 : strToLower (PyPath.suffix out) = ".wav"
          · rw [if_pos h3]; simp
          · exfalso
            unfold legalCompressExt at hleg
            simp only [Bool.or_eq_true, beq_iff_eq] at hleg
            rcases hleg with (h | h) | h
            · exact h1 h
            · exact h3 h
            · exact h2 h
    · rw [if_neg hbw]; simp

/-- C4: the round-trip assertion can never fail, and whenever any file
content is read or written, the resolved output's extension is legal for
the selected mode. -/
theorem C4_ext_invariant (a : Args) (e : Env) :
    (mainRun a e).outcome ≠ .assertFailed ∧
    (hasIOEv (mainRun a e).trace = true → extLegal a = true) := by
  rw [mainRun_outcome, mainRun_hasIO]
  unfold mainCore
  cases hin : e.ex a.input
  · exact ⟨by simp, fun h => Bool.noConfusion h⟩
  · simp only [hin]
    by_cases hdec : strToLower (PyPath.suffix a.input) = SUFFIX
    · rw [if_pos hdec]
      cases ho : a.output with
      | none =>
        dsimp only
        refine ⟨decompressRun_no_assert a e _ _, fun _ => ?_⟩
        rw [extLegal_of_decompress a hdec]
        have hro : resolvedOutput a = defaultDecompressOut a := by
          simp [resolvedOutput, hdec, ho]
        rw [hro, suffix_defaultDecompressOut a hdec]
        rfl
      | some o =>
        dsimp only
        by_cases hw : strToLower (PyPath.suffix o) = ".wav"
        · rw [if_pos hw]
          refine ⟨decompressRun_no_assert a e _ _, fun _ => ?_⟩
          rw [extLegal_of_decompress a hdec]
          have hro : resolvedOutput a = o := by simp [resolvedOutput, hdec, ho]
          rw [hro, hw]
          rfl
        · rw [if_neg hw]
          exact ⟨by simp, fun h => Bool.noConfusion h⟩
    · rw [if_neg hdec]
      cases ho : a.output with
      | none =>
        dsimp only
        by_cases hn : a.input.name = ""
        · rw [if_pos hn]
          exact ⟨by simp, fun h => Bool.noConfusion h⟩
        · rw [if_neg hn]
          have hro : resolvedOutput a = a.input.withSuffix SUFFIX := by
            simp [resolvedOutput, hdec, ho]
          have hleg : legalCompressExt (strToLower (PyPath.suffix (a.input.withSuffix SUFFIX))) = true := by
            rw [suffix_withSuffix_SUFFIX a.input hn]
            rfl
          refine ⟨compressRun_no_assert a e _ _ hleg, fun _ => ?_⟩
          rw [extLegal_of_not_decompress a hdec, hro]
          exact hleg
      | some o =>
        dsimp only
        by_cases hl : legalCompressExt (strToLower (PyPath.suffix o)) = true
        · rw [if_pos hl]
          have hro : resolvedOutput a = o := by simp [resolvedOutput, hdec, ho]
          refine ⟨compressRun_no_assert a e _ _ hl, fun _ => ?_⟩
          rw [extLegal_of_not_decompress a hdec, hro]
          exact hl
        · rw [if_neg hl]
          exact ⟨by simp, fun h => Bool.noConfusion h⟩

/-- C4 witness: a concrete run that performs I/O has a legal extension. -/
theorem C4_witness : extLegal baseArgs = true :=
  (C4_ext_invariant baseArgs (envOf [⟨["sample.ecdc"]⟩, ⟨[]⟩] [])).2 (by decide)

/-- C3 counterexample: for input `x_decompressed.ecdc` with the default
decompress suffix and no output argument, the default output name is
`x_decompressed_decompressed.wav`: the suffix appears twice, not exactly
once as the claim states. -/
theorem C3_counterexample :
    (resolvedOutput { baseArgs with input := ⟨["x_decompressed.ecdc"]⟩ }).name =
      "x_decompressed_decompressed.wav" ∧
    countOcc "_decompressed"
      (resolvedOutput { baseArgs with input := ⟨["x_decompressed.ecdc"]⟩ }).name = 2 :=
  ⟨by decide, by decide⟩

/-- C3 (amended): for every Decompress-mode input with no output given, the
default output name is `pathStem(stem + decompress-suffix) + ".wav"`: the
suffix is appended unconditionally and `with_suffix(".wav")` then replaces
everything from the last dot of the appended name.  Consequently, when the
stem and the suffix contain no dot and the stem already ends with the
suffix, the default is `<input-stem><decompress-suffix>.wav` with the
suffix appearing twice (duplicated, never exactly once); when the stem
contains a dot, the name is instead truncated at that dot (for example
`v1.2_decompressed.ecdc` defaults to `v1.wav`, dropping the suffix). -/
theorem C3_default_output (a : Args)
    (hdec : strToLower (PyPath.suffix a.input) = SUFFIX)
    (ho : a.output = none) :
    (resolvedOutput a).name =
      pathStem (PyPath.stem a.input ++ a.decompressSuffix) ++ ".wav" ∧
    (∀ t, PyPath.stem a.input = t ++ a.decompressSuffix →
      '.' ∉ (t ++ a.decompressSuffix ++ a.decompressSuffix).data →
      (resolvedOutput a).name =
        t ++ a.decompressSuffix ++ a.decompressSuffix ++ ".wav") := by
  have hro : resolvedOutput a = defaultDecompressOut a := by
    simp [resolvedOutput, hdec, ho]
  constructor
  · rw [hro]
    unfold defaultDecompressOut
    rw [withSuffix_name, withName_name]
  · intro t hstem hnodot
    rw [hro]
    unfold defaultDecompressOut
    rw [withSuffix_name, withName_name, hstem, pathStem_nodot _ hnodot]

/-- C3 witness: input `x_d.ecdc` with decompress suffix `_d` defaults to
`x_d_d.wav` (dot-free stem ending in the suffix: duplicated), while the
dotted-stem input `v1.2_decompressed.ecdc` defaults to `v1.wav`. -/
theorem C3_witness :
    (resolvedOutput { baseArgs with input := ⟨["x_d.ecdc"]⟩, decompressSuffix := "_d" }).name =
      "x" ++ "_d" ++ "_d" ++ ".wav" ∧
    (resolvedOutput { baseArgs with input := ⟨["v1.2_decompressed.ecdc"]⟩ }).name = "v1.wav" :=
  ⟨(C3_default_output { baseArgs with input := ⟨["x_d.ecdc"]⟩, decompressSuffix := "_d" }
      (by decide) rfl).2 "x" (by decide) (by decide),
   by decide⟩

/-- C2 counterexample: on `sample.wav` to `sample.pt` with default flags the
run invokes the full `compress` encode (quantization/entropy coding) in
addition to the embedding-only encoder, contradicting the claim that only
the encode-embedding-only operation is invoked; decode and bitstream
writing indeed never happen. -/
theorem C2_counterexample :
    hasEncodeEv (mainRun { baseArgs with input := ⟨["sample.wav"]⟩, output := some ⟨["sample.pt"]⟩ }
      (envOf [⟨["sample.wav"]⟩, ⟨[]⟩] [])).trace = true ∧
    hasEmbedEv (mainRun { baseArgs with input := ⟨["sample.wav"]⟩, output := some ⟨["sample.pt"]⟩ }
      (envOf [⟨["sample.wav"]⟩, ⟨[]⟩] [])).trace = true ∧
    hasDecodeEv (mainRun { baseArgs with input := ⟨["sample.wav"]⟩, output := some ⟨["sample.pt"]⟩ }
      (envOf [⟨["sample.wav"]⟩, ⟨[]⟩] [])).trace = false ∧
    hasWriteBytesEv (mainRun { baseArgs with input := ⟨["sample.wav"]⟩, output := some ⟨["sample.pt"]⟩ }
      (envOf [⟨["sample.wav"]⟩, ⟨[]⟩] [])).trace = false :=
  ⟨by decide, by decide, by decide, by decide⟩

/-- In the embedding pipeline the core trace is exactly: model lookup, set
bandwidth, load, resample, full encode (result discarded), embedding-only
encode, save embedding. -/
theorem mainCore_pt (a : Args) (e : Env)
    (hcomp : strToLower (PyPath.suffix a.input) ≠ SUFFIX)
    (hpt : strToLower (PyPath.suffix (resolvedOutput a)) = ".pt")
    (hok : (mainCore a e).outcome = .ok) :
    (mainCore a e).trace =
      [Event.lookupModel (modelNameOf a.hq), Event.setBandwidth a.bandwidth,
       Event.loadWaveform a.input,
       Event.convertAudio (e.models (modelNameOf a.hq)).sampleRate
         (e.models (modelNameOf a.hq)).channels,
       Event.encode (modelNameOf a.hq) a.bandwidth a.lm (a.gpu && e.cudaAvailable),
       Event.encodeEmbedding (a.gpu && e.cudaAvailable),
       Event.saveEmbedding (resolvedOutput a)] := by
  unfold mainCore at hok ⊢
  cases hin : e.ex a.input
  · rw [hin] at hok; simp at hok
  · rw [hin] at hok
    simp only [hin]
    rw [if_neg hcomp] at hok ⊢
    cases ho : a.output with
    | none =>
      rw [ho] at hok
      dsimp only at hok ⊢
      have hro : resolvedOutput a = a.input.withSuffix SUFFIX := by
        simp [resolvedOutput, hcomp, ho]
      by_cases hn : a.input.name = ""
      · rw [if_pos hn] at hok; simp at hok
      · exfalso
        rw [hro, suffix_withSuffix_SUFFIX a.input hn] at hpt
        exact absurd hpt (by decide)
    | some o =>
      rw [ho] at hok
      dsimp only at hok ⊢
      have hro : resolvedOutput a = o := by simp [resolvedOutput, hcomp, ho]
      rw [hro] at hpt
      by_cases hl : legalCompressExt (strToLower (PyPath.suffix o)) = true
      · rw [if_pos hl] at hok ⊢
        unfold compressRun at hok ⊢
        cases hc : checkOutputExists e o a.force with
        | some err => rw [hc] at hok; simp at hok
        | none =>
          rw [hc] at hok
          dsimp only at hok ⊢
          by_cases hbw : a.bandwidth ∈ (e.models (modelNameOf a.hq)).targetBandwidths
          · rw [if_pos hbw] at hok ⊢
            have h1 : ¬ strToLower (PyPath.suffix o) = SUFFIX := by
              rw [hpt]; decide
            rw [if_neg h1, if_pos hpt] at hok ⊢
            rw [hro]
            rfl
          · rw [if_neg hbw] at hok; simp at hok
      · rw [if_neg hl] at hok; simp at hok

/-- C2 (amended): in CompressToEmbedding mode the pipeline loads and
resamples the waveform, invokes the full encode operation - quantization
and entropy coding run, their result is discarded - and then the
embedding-only encoder, persists the embedding, and never invokes decode
and never writes a bitstream file. -/
theorem C2_embedding_pipeline (a : Args) (e : Env)
    (hcomp : strToLower (PyPath.suffix a.input) ≠ SUFFIX)
    (hpt : strToLower (PyPath.suffix (resolvedOutput a)) = ".pt")
    (hok : (mainRun a e).outcome = .ok) :
    obsTrace (mainRun a e) =
      [Event.lookupModel (modelNameOf a.hq), Event.setBandwidth a.bandwidth,
       Event.loadWaveform a.input,
       Event.convertAudio (e.models (modelNameOf a.hq)).sampleRate
         (e.models (modelNameOf a.hq)).channels,
       Event.encode (modelNameOf a.hq) a.bandwidth a.lm (a.gpu && e.cudaAvailable),
       Event.encodeEmbedding (a.gpu && e.cudaAvailable),
       Event.saveEmbedding (resolvedOutput a)] := by
  have hokc : (mainCore a e).outcome = .ok := by rw [← mainRun_outcome]; exact hok
  rw [mainRun_obsTrace, mainCore_pt a e hcomp hpt hokc]
  rfl

/-- C2 witness: the `sample.wav` to `sample.pt` scenario, fully evaluated. -/
theorem C2_witness :
    obsTrace (mainRun { baseArgs with input := ⟨["sample.wav"]⟩, output := some ⟨["sample.pt"]⟩ }
      (envOf [⟨["sample.wav"]⟩, ⟨[]⟩] [])) =
      [Event.lookupModel "encodec_24khz", Event.setBandwidth 6,
       Event.loadWaveform ⟨["sample.wav"]⟩, Event.convertAudio 24000 1,
       Event.encode "encodec_24khz" 6 false false,
       Event.encodeEmbedding false, Event.saveEmbedding ⟨["sample.pt"]⟩] :=
  C2_embedding_pipeline { baseArgs with input := ⟨["sample.wav"]⟩, output := some ⟨["sample.pt"]⟩ }
    (envOf [⟨["sample.wav"]⟩, ⟨[]⟩] []) (by decide) (by decide) (by decide)

/-- C1 counterexample: input exists, the explicit output `out/bad.xyz` has
both an illegal extension and a missing parent directory.  The code prints
the extension diagnostic, while the claim's check order (parent directory
before extension) would print the missing-directory diagnostic. -/
theorem C1_counterexample :
    mainRun { baseArgs with input := ⟨["in.wav"]⟩, output := some ⟨["out", "bad.xyz"]⟩ }
        (envOf [⟨["in.wav"]⟩] []) = ⟨[], .fatal .badExtCompress⟩ ∧
    claimOrderCheck { baseArgs with input := ⟨["in.wav"]⟩, output := some ⟨["out", "bad.xyz"]⟩ }
        (envOf [⟨["in.wav"]⟩] []) = some .outDirMissing ∧
    Err.badExtCompress ≠ Err.outDirMissing :=
  ⟨by decide, by decide, by decide⟩

/-- Outcome of the decompression body as a function of the output checks. -/
theorem decompressRun_outcome (a : Args) (e : Env) (out : PyPath) (cuda : Bool) :
    (decompressRun a e out cuda).outcome =
      match checkOutputExists e out a.force with
      | some err => Outcome.fatal err
      | none => Outcome.ok := by
  unfold decompressRun
  cases checkOutputExists e out a.force <;> rfl

/-- The compression body exits with a diagnostic exactly for a failed output
check or an unsupported bandwidth. -/
theorem compressRun_fatal_iff (a : Args) (e : Env) (out : PyPath) (cuda : Bool) (err : Err) :
    (compressRun a e out cuda).outcome = .fatal err ↔
      (checkOutputExists e out a.force = some err ∨
        (checkOutputExists e out a.force = none ∧
         a.bandwidth ∉ (e.models (modelNameOf a.hq)).targetBandwidths ∧
         err = .badBandwidth)) := by
  unfold compressRun
  cases hc : checkOutputExists e out a.force with
  | some e2 =>
    dsimp only
    simp
  | none =>
    dsimp only
    by_cases hbw : a.bandwidth ∈ (e.models (modelNameOf a.hq)).targetBandwidths
    · rw [if_pos hbw]
      split
      · simp [hbw]
      · split
        · simp [hbw]
        · split <;> simp [hbw]
    · rw [if_neg hbw]
      simp [hbw, eq_comm]

/-- C1 (amended): the fatal diagnostics are issued in the order (1) input
exists, (2) for an explicitly given output, extension legality for the
mode, (3) output parent directory exists, (4) output absent unless force,
(5) compression family only: bandwidth supported - `validate` lists the
checks in exactly that order, and the driver's diagnostic is always the
earliest failing check of that list. -/
theorem C1_check_order (a : Args) (e : Env) (hname : a.input.name ≠ "") (err : Err) :
    (mainRun a e).outcome = .fatal err ↔ validate a e = some err := by
  rw [mainRun_outcome]
  unfold mainCore validate
  cases hin : e.ex a.input
  · simp
  · simp only [hin, eq_self_iff_true, if_true]
    by_cases hdec : strToLower (PyPath.suffix a.input) = SUFFIX
    · rw [if_pos hdec, if_pos hdec]
      cases ho : a.output with
      | none =>
        dsimp only
        rw [decompressRun_outcome]
        cases hc : checkOutputExists e (defaultDecompressOut a) a.force <;> simp
      | some o =>
        dsimp only
        by_cases hw : strToLower (PyPath.suffix o) = ".wav"
        · rw [if_pos hw, if_pos hw, decompressRun_outcome]
          cases hc : checkOutputExists e o a.force <;> simp
        · rw [if_neg hw, if_neg hw]
          simp
    · rw [if_neg hdec, if_neg hdec]
      cases ho : a.output with
      | none =>
        dsimp only
        rw [if_neg hname]
        have hro : resolvedOutput a = a.input.withSuffix SUFFIX := by
          simp [resolvedOutput, hdec, ho]
        rw [hro, compressRun_fatal_iff]
        cases hc : checkOutputExists e (a.input.withSuffix SUFFIX) a.force with
        | some e2 => simp
        | none =>
          dsimp only
          by_cases hbw : a.bandwidth ∈ (e.models (modelNameOf a.hq)).targetBandwidths
          · rw [if_pos hbw]
            simp [hbw]
          · rw [if_neg hbw]
            simp [hbw, eq_comm]
      | some o =>
        dsimp only
        have hro : resolvedOutput a = o := by simp [resolvedOutput, hdec, ho]
        rw [hro]
        by_cases hl : legalCompressExt (strToLower (PyPath.suffix o)) = true
        · rw [if_pos hl, if_pos hl, compressRun_fatal_iff]
          cases hc : checkOutputExists e o a.force with
          | some e2 => simp
          | none =>
            dsimp only
            by_cases hbw : a.bandwidth ∈ (e.models (modelNameOf a.hq)).targetBandwidths
            · rw [if_pos hbw]
              simp [hbw]
            · rw [if_neg hbw]
              simp [hbw, eq_comm]
        · rw [if_neg hl, if_neg hl]
          simp

/-- C1 witness: a run where the extension check fires although the claimed
order would fire the directory check. -/
theorem C1_witness :
    (mainRun { baseArgs with input := ⟨["in.wav"]⟩, output := some ⟨["out", "bad.xyz"]⟩ }
      (envOf [⟨["in.wav"]⟩] [])).outcome = .fatal .badExtCompress :=
  (C1_check_order { baseArgs with input := ⟨["in.wav"]⟩, output := some ⟨["out", "bad.xyz"]⟩ }
    (envOf [⟨["in.wav"]⟩] []) (by decide) .badExtCompress).mpr (by decide)
